import Mathlib

/-!
Verification of the `mere` source-package build engine

A shallow embedding, in Lean 4, of the core of the `mere` build engine
(Go sources: `source.go`, `spec.go`, `build.go`, `fetch.go`).  Pure Go
functions become Lean functions; the functions that touch the filesystem
or the network are embedded as explicit state passing over a `World`
record (path-indexed file contents and directories) together with a
trace of observable side effects (`Eff`).  External library primitives
(the Go functions `net/url.Parse`, `path.Base`, `path/filepath.Abs`, the BLAKE3
hash from `zeebo/blake3`, and `os/exec` environment semantics) are
modelled from their documented behaviour, restricted to the fragments
the program exercises; the BLAKE3 compression itself is kept as an
explicit function parameter, exactly as the program treats it (an
uninterpreted digest of the file bytes, hex-encoded by `encoding/hex`).
-/

/-! ## Byte and character utilities -/

/-- File contents: a list of byte values. -/
abbrev Bytes := List Nat

/-- ASCII lower-casing of a single character (models Go `strings.ToLower`
for the ASCII range, which is all the program ever feeds it). -/
def asciiLower (c : Char) : Char :=
  if 'A' ≤ c ∧ c ≤ 'Z' then Char.ofNat (c.toNat + 32) else c

/-- Lower-case an entire string, ASCII-wise. -/
def lowerString (s : String) : String :=
  ⟨s.data.map asciiLower⟩

/-- One hex digit, lower case, as produced by Go `encoding/hex`. -/
def hexDigit (n : Nat) : Char :=
  if n < 10 then Char.ofNat (48 + n) else Char.ofNat (87 + n)

/-- Hex-encode a byte string, two lower-case digits per byte
(models Go `hex.EncodeToString`). -/
def hexEncode (b : Bytes) : String :=
  ⟨b.foldr (fun byte acc => hexDigit (byte / 16 % 16) :: hexDigit (byte % 16) :: acc) []⟩

/-- Is `c` a hexadecimal digit (either case)?  Used only to state the
regular expression `/^[0-9a-fA-F]{64}$/` of the spec. -/
def isHexChar (c : Char) : Bool :=
  ('0' ≤ c ∧ c ≤ '9') ∨ ('a' ≤ c ∧ c ≤ 'f') ∨ ('A' ≤ c ∧ c ≤ 'F')

/-- Spec-side definition (from the words of the spec, for comparison with the
code): `s` matches `/^[0-9a-fA-F]{64}$/`. -/
def matchesHex64 (s : String) : Bool :=
  s.length == 64 && s.data.all isHexChar

/-- Spec-side definition (from the words of the spec): two digest strings are
equal "up to letter case". -/
def hexEqCaseless (a b : String) : Bool :=
  lowerString a == lowerString b

/-! ## Go `path.Base` and `filepath.Abs` (on a rooted path)

`path.Base`: empty input gives ".", trailing slashes are stripped, the
last slash-separated element is returned, an all-slash input gives "/".
`filepath.Abs("/" ++ base)` on an already-absolute path is `Clean`,
which resolves "." and ".." components and collapses slashes. -/

/-- Strip trailing `'/'` characters. -/
def dropTrailingSlashes (l : List Char) : List Char :=
  (l.reverse.dropWhile (· = '/')).reverse

/-- The segment after the last `'/'` (the whole list when there is none). -/
def afterLastChar (ch : Char) (l : List Char) : List Char :=
  (l.reverse.takeWhile (· ≠ ch)).reverse

/-- Go `path.Base`. -/
def goPathBase (p : String) : String :=
  if p.data = [] then "."
  else
    let q := dropTrailingSlashes p.data
    if q = [] then "/"
    else ⟨afterLastChar '/' q⟩

/-- Split a character list on `'/'` into components. -/
def splitSlash : List Char → List (List Char)
  | [] => [[]]
  | c :: rest =>
    match splitSlash rest with
    | [] => [[]]
    | g :: gs => if c = '/' then [] :: g :: gs else (c :: g) :: gs

/-- The component stack built by `filepath.Clean` on an absolute path:
empty and "." components vanish, ".." pops (and is dropped at the root). -/
def cleanAbsStack (stack : List (List Char)) : List (List Char) → List (List Char)
  | [] => stack
  | c :: rest =>
    if c = [] ∨ c = ['.'] then cleanAbsStack stack rest
    else if c = ['.', '.'] then cleanAbsStack stack.dropLast rest
    else cleanAbsStack (stack ++ [c]) rest

/-- Join components with `'/'` separators. -/
def joinSlash : List (List Char) → List Char
  | [] => []
  | [c] => c
  | c :: rest => c ++ '/' :: joinSlash rest

/-- Go `filepath.Abs("/" ++ base)` (on Unix: `filepath.Clean` of the
rooted path). -/
def filepathAbsSlash (base : String) : String :=
  match cleanAbsStack [] (splitSlash base.data) with
  | [] => "/"
  | comps => ⟨'/' :: joinSlash comps⟩

/-! ## Go `net/url.Parse`, restricted to scheme / host / path

Modelled from the documented behaviour of `net/url.Parse`: the scheme is
the longest `[A-Za-z][A-Za-z0-9+\-.]*` prefix followed by `':'`
(lower-cased in the result; a leading `':'` is the "missing protocol
scheme" error); the fragment and query are cut off; a rest beginning
with `"//"` carries an authority up to the next `'/'` whose host is the
part after the user-info `'@'`; with a scheme and no leading `'/'` the
rest is left whole and the `Path` is empty; otherwise the rest is the path.
Percent-decoding and host validation are not modelled (no claim depends
on them). -/

structure GoURL where
  scheme : String
  host : String
  path : String
deriving Repr, DecidableEq

/-- May `c` appear in a URL scheme after the first character? -/
def schemeChar (c : Char) : Bool :=
  c.isAlpha ∨ c.isDigit ∨ c = '+' ∨ c = '-' ∨ c = '.'

/-- Scan for `scheme ':'`; `orig` is the whole input, returned unsplit
when no valid scheme prefix exists. -/
def getSchemeLoop (orig : List Char) (acc : List Char) : List Char → (List Char × List Char)
  | [] => ([], orig)
  | c :: rest =>
    if c = ':' then (acc.reverse, rest)
    else if schemeChar c then getSchemeLoop orig (c :: acc) rest
    else ([], orig)

/-- Go `getScheme`: split `scheme ':' rest`; a leading `':'` is an
error; a missing or invalid scheme leaves the input whole. -/
def getScheme (l : List Char) : Except String (List Char × List Char) :=
  match l with
  | [] => .ok ([], [])
  | c :: rest =>
    if c = ':' then .error "missing protocol scheme"
    else if c.isAlpha then .ok (getSchemeLoop l [c] rest)
    else .ok ([], l)

/-- Drop everything from the first occurrence of `ch` on. -/
def cutAtChar (ch : Char) (l : List Char) : List Char :=
  l.takeWhile (· ≠ ch)

/-- Go `net/url.Parse`, restricted as described above. -/
def urlParse (s : String) : Except String GoURL :=
  match getScheme s.data with
  | .error e => .error e
  | .ok (sch, rest) =>
    let scheme : List Char := sch.map asciiLower
    let rest := cutAtChar '#' rest
    let rest := cutAtChar '?' rest
    if rest.take 2 = ['/', '/'] then
      let afterSS := rest.drop 2
      let auth := afterSS.takeWhile (· ≠ '/')
      let path := afterSS.dropWhile (· ≠ '/')
      .ok ⟨⟨scheme⟩, ⟨afterLastChar '@' auth⟩, ⟨path⟩⟩
    else if scheme ≠ [] ∧ rest.take 1 ≠ ['/'] then
      .ok ⟨⟨scheme⟩, "", ""⟩
    else
      .ok ⟨⟨scheme⟩, "", ⟨rest⟩⟩

/-! ## The Source record and `validateSource` (source.go) -/

/-- The `Source` from source.go: the serialized fields plus the transient
`protocol` and `savePath` (the `output` writer carries no state we track). -/
structure Source where
  URL : String
  B3Sum : String
  LocalName : String := ""
  protocol : String := ""
  savePath : String := ""
deriving Repr, DecidableEq

/-- Errors raised by spec ingestion (`NewSpec` / `validateSource`). -/
inductive SpecErr where
  | schemaErr
  | urlErr (msg : String)
  | unsupportedScheme (scheme : String)
  | noPathElement
deriving Repr, DecidableEq

/-- The effective local name `validateSource` settles on: the explicit
`LocalName` when given, else the parsed URL path. -/
def effLocalName (s : Source) (u : GoURL) : String :=
  if s.LocalName = "" then u.path else s.LocalName

/-- The `validateSource` from source.go (the snapshot at lines 30-57): parse
the URL; an empty scheme falls through to the `file` protocol, `file`
stays `file`, `http`/`https` become `http`, anything else is the
unsupported-protocol-scheme error; then default `LocalName` from the URL
path and reject when `filepath.Abs("/" ++ path.Base(localName))` is
`"/"` (the no-path-element error). -/
def validateSource (s : Source) : Except SpecErr Source :=
  match urlParse s.URL with
  | .error e => .error (.urlErr e)
  | .ok u =>
    if u.scheme = "" ∨ u.scheme = "file" then
      validateSourceTail s u "file"
    else if u.scheme = "http" ∨ u.scheme = "https" then
      validateSourceTail s u "http"
    else
      .error (.unsupportedScheme u.scheme)
where
  /-- The part of `validateSource` after the scheme switch. -/
  validateSourceTail (s : Source) (u : GoURL) (proto : String) : Except SpecErr Source :=
    let localName := effLocalName s u
    if filepathAbsSlash (goPathBase localName) = "/" then .error .noPathElement
    else .ok { s with protocol := proto, LocalName := localName }

/-! ## The filesystem world and effect traces

Stateful code is embedded as explicit state passing over `World` (file
contents and directories, both keyed by full path) together with a trace
of the observable side effects each call performs. -/

/-- A snapshot of the parts of the filesystem the program touches. -/
structure World where
  files : List (String × Bytes)
  dirs : List String
deriving Repr, DecidableEq

/-- The `os.Stat`-style lookup of the contents of a regular file. -/
def World.lookupFile (w : World) (p : String) : Option Bytes :=
  (w.files.find? (fun e => e.1 = p)).map (·.2)

/-- Does `p` name a directory? -/
def World.isDir (w : World) (p : String) : Bool :=
  w.dirs.contains p

/-- The `os.Stat` succeeds (`finfo != nil`): `p` exists as file or directory. -/
def World.statExists (w : World) (p : String) : Bool :=
  (w.lookupFile p).isSome || w.isDir p

/-- The `os.Create` then a full copy: (over)write the file at `p`. -/
def World.writeFile (w : World) (p : String) (b : Bytes) : World :=
  { w with files := (p, b) :: w.files.filter (fun e => e.1 ≠ p) }

/-- The `os.MkdirAll` / `os.Mkdir`: record `p` as a directory. -/
def World.mkdirAll (w : World) (p : String) : World :=
  { w with dirs := p :: w.dirs }

/-- Observable side effects of the fetch/build pipeline. -/
inductive Eff where
  | httpGet (url : String)
  | fileCopy (src dst : String)
  | extracted (archive dst : String)
  | linked (target link : String)
deriving Repr, DecidableEq

/-- Errors raised by the fetch/build side (source.go, build.go). -/
inductive FetchErr where
  | notADir (p : String)
  | openErr (p : String)
  | b3sumMismatch (expected actual : String)
  | httpErr (url : String)
  | protoErr (proto : String)
deriving Repr, DecidableEq

/-! ## Digest service (source.go: `computeB3Sum`, `checkB3SumFromFile`)

The BLAKE3 compression function itself (library `zeebo/blake3`) is an
explicit parameter `hash : Bytes → Bytes`; the program only ever feeds a
bytes of a file through it and hex-encodes the 32-byte result with
`hex.EncodeToString`. -/

/-- The `computeB3Sum`: hash the data and hex-encode (lines 206-214 of
source.go; `hash.Sum` collapsed to the `hash` parameter). -/
def computeB3Sum (hash : Bytes → Bytes) (data : Bytes) : String :=
  hexEncode (hash data)

/-- The `computeB3SumFromFile`: open then digest; an unopenable path is an
io error. -/
def computeB3SumFromFile (hash : Bytes → Bytes) (w : World) (filename : String) :
    Except FetchErr String :=
  match w.lookupFile filename with
  | none => .error (.openErr filename)
  | some data => .ok (computeB3Sum hash data)

/-- The `checkB3SumFromFile` (source.go lines 244-254): digest the file and
compare with `==` against the expected string; on inequality return the
b3sum-mismatch error carrying expected then actual. -/
def checkB3SumFromFile (hash : Bytes → Bytes) (w : World) (filename b3sum : String) :
    Except FetchErr Unit :=
  match computeB3SumFromFile hash w filename with
  | .error e => .error e
  | .ok sum => if sum = b3sum then .ok () else .error (.b3sumMismatch b3sum sum)

/-- The `ensureDir` (source.go): an existing directory is fine, an existing
non-directory is the not-a-directory error, a missing path is created. -/
def ensureDir (w : World) (p : String) : Except FetchErr World :=
  if (w.lookupFile p).isSome then .error (.notADir p)
  else if w.isDir p then .ok w
  else .ok (w.mkdirAll p)

/-! ## Source fetching (source.go: `fetchSource`, `fetchSources`) -/

/-- The cached path chosen at source.go line 64:
`strings.Join([]string{spec.sourceCache, path.Base(source.LocalName)}, "/")`. -/
def savePathFor (sourceCache : String) (s : Source) : String :=
  sourceCache ++ "/" ++ goPathBase s.LocalName

/-- The `fetchSource` (source.go lines 59-89): ensure the cache directory,
compute `savePath`, and if a file is already there return the digest
outcome of that check; otherwise fetch by protocol (`file` copies from
`LocalName`, `http` downloads `URL`, the HTTP transport being the
`net : String → Option Bytes` parameter with `none` covering transport
errors and HTTP statuses ≥ 400, both of which fail before the
destination file is created) and then check the digest.  Returns the
outcome, the updated source (Go mutates it in place), the new world and
the effect trace. -/
def fetchSource (hash : Bytes → Bytes) (net : String → Option Bytes)
    (sourceCache : String) (s : Source) (w : World) :
    Except FetchErr Unit × Source × World × List Eff :=
  match ensureDir w sourceCache with
  | .error e => (.error e, s, w, [])
  | .ok w1 =>
    let savePath := savePathFor sourceCache s
    let s1 := { s with savePath := savePath }
    if w1.statExists savePath then
      (checkB3SumFromFile hash w1 savePath s.B3Sum, s1, w1, [])
    else if s.protocol = "file" then
      match w1.lookupFile s.LocalName with
      | none => (.error (.openErr s.LocalName), s1, w1, [])
      | some data =>
        let w2 := w1.writeFile savePath data
        (checkB3SumFromFile hash w2 savePath s.B3Sum, s1, w2,
          [.fileCopy s.LocalName savePath])
    else if s.protocol = "http" then
      match net s.URL with
      | none => (.error (.httpErr s.URL), s1, w1, [.httpGet s.URL])
      | some data =>
        let w2 := w1.writeFile savePath data
        (checkB3SumFromFile hash w2 savePath s.B3Sum, s1, w2, [.httpGet s.URL])
    else
      (.error (.protoErr s.protocol), s1, w1, [])

/-- The `fetchSources` (source.go lines 91-99): iterate the sources in
order, appending the error of each failing call to the list. -/
def fetchSources (hash : Bytes → Bytes) (net : String → Option Bytes)
    (sourceCache : String) : List Source → World →
    List FetchErr × List Source × World × List Eff
  | [], w => ([], [], w, [])
  | s :: rest, w =>
    let r := fetchSource hash net sourceCache s w
    let rs := fetchSources hash net sourceCache rest r.2.2.1
    ((match r.1 with | .error e => [e] | .ok _ => []) ++ rs.1,
      r.2.1 :: rs.2.1, rs.2.2.1, r.2.2.2 ++ rs.2.2.2)

/-- Specification-side companion of `fetchSources`: the per-source
outcome of each attempted fetch, threading the world identically. -/
def fetchAttempts (hash : Bytes → Bytes) (net : String → Option Bytes)
    (sourceCache : String) : List Source → World → List (Except FetchErr Unit)
  | [], _ => []
  | s :: rest, w =>
    let r := fetchSource hash net sourceCache s w
    r.1 :: fetchAttempts hash net sourceCache rest r.2.2.1

/-! ## The Spec record, schema validation and `NewSpec` (spec.go) -/

/-- The `Spec` from spec.go, restricted to the fields the verified core
reads (`Name`, `Version`, the sources, the three stage scripts and the
transient `sourceCache`; `workingDir` and `buildContext` are computed and
returned by the build functions below). -/
structure Spec where
  Name : String
  Version : String
  Sources : List Source
  Build : String := ""
  Test : String := ""
  Install : String := ""
  sourceCache : String
deriving Repr, DecidableEq

/-- The source-level constraint of the reflectively derived JSON schema
(spec.go `validateSchema` with the `Source` struct tag
`jsonschema:"minLength=64,maxLength=64"` on `b3sum`): for every source the
`b3sum` has exactly 64 characters. -/
def validateSchemaSources (sources : List Source) : Bool :=
  sources.all (fun s => s.B3Sum.length == 64)

/-- The `validateSource` loop of `NewSpec` (spec.go lines 172-184): the
first failing source aborts ingestion with its error. -/
def validateSources : List Source → Except SpecErr (List Source)
  | [] => .ok []
  | s :: rest =>
    match validateSource s with
    | .error e => .error e
    | .ok s1 =>
      match validateSources rest with
      | .error e => .error e
      | .ok rest1 => .ok (s1 :: rest1)

/-- The validation pipeline of `NewSpec` restricted to sources: schema
validation first (spec.go line 174), then per-source URL validation. -/
def newSpecValidate (sources : List Source) : Except SpecErr (List Source) :=
  if validateSchemaSources sources then validateSources sources
  else .error .schemaErr

/-- The `spec.buildOrder` as constructed at the end of `NewSpec` (spec.go
lines 186-199): the pairs (stage name, stage script) in fixed order. -/
def buildOrder (sp : Spec) : List (String × String) :=
  [("build", sp.Build), ("test", sp.Test), ("install", sp.Install)]

/-! ## Stage runner (build.go: `executeStage`) -/

/-- The observable configuration of a child process handed to `os/exec`. -/
structure ChildProc where
  argv : List String
  env : List String
  dir : String
deriving Repr, DecidableEq

/-- The `executeStage` (build.go lines 57-71), as the child-process
configuration it constructs: `sh -c "set -e\n" + stage`, working
directory `buildContext`, and `cmd.Env` set to exactly the two `MERE_*`
variables. -/
def executeStage (workingDir buildContext stage : String) : ChildProc :=
  { argv := ["sh", "-c", "set -e\n" ++ stage]
    env := ["MERE_PKGDIR=" ++ workingDir ++ "/" ++ "package",
            "MERE_SRCDIR=" ++ workingDir ++ "/" ++ "source"]
    dir := buildContext }

/-- Go `os/exec` environment semantics: a child started with a non-nil
`cmd.Env` receives exactly that list; only a nil `cmd.Env` inherits the
environment of the parent. -/
def childEnv (parentEnv : List String) (cmdEnv : Option (List String)) : List String :=
  match cmdEnv with
  | some e => e
  | none => parentEnv

/-- The variable name to the left of the first `'='` of an environment
entry. -/
def envKey (v : String) : String :=
  ⟨cutAtChar '=' v.data⟩

/-! ## Build orchestration (build.go: `setupBuildSteps`, `buildSteps`) -/

/-- Errors returned by the build orchestrator. -/
inductive BuildErr where
  | fetchFailed (errs : List FetchErr)
  | stepFailed (e : FetchErr)
  | stageFailed (script : String) (exitCode : Nat)
deriving Repr, DecidableEq

/-- Is `q` directly below directory `p`, i.e. `q = p ++ "/" ++ n` with
`n` a nonempty slash-free name?  Returns that name. -/
def childOf (p : List Char) (q : List Char) : Option (List Char) :=
  match p, q with
  | [], '/' :: rest => if rest ≠ [] ∧ ¬rest.contains '/' then some rest else none
  | a :: p1, b :: q1 => if a = b then childOf p1 q1 else none
  | _, _ => none

/-- Deduplicate a list of names, keeping first occurrences. -/
def dedupNames : List (List Char) → List (List Char)
  | [] => []
  | n :: rest => n :: (dedupNames rest).filter (· ≠ n)

/-- The `os.ReadDir`: the (name, is-directory) entries directly inside `p`
(entry order is not modelled; the code only ever asks for the entry
count and the name of the single entry). -/
def World.readDirNames (w : World) (p : String) : List (String × Bool) :=
  let fileNames := dedupNames (w.files.filterMap (fun e => childOf p.data e.1.data))
  let dirNames := dedupNames (w.dirs.filterMap (fun d => childOf p.data d.data))
  fileNames.map (fun n => (⟨n⟩, false)) ++
    (dirNames.filter (fun n => ¬fileNames.contains n)).map (fun n => (⟨n⟩, true))

/-- The `setupBuildSteps` (build.go lines 84-115): fetch all sources
(aborting with the collected error list if any failed), create the
working tree `wd`, `wd/build`, `wd/package`, `wd/source`, set
`buildContext := wd ++ "/build"`, and when there is at least one source
extract the primary archive `Sources[0].savePath` into it (the archive
unpacker `extract.Archive` is the parameter `ext`); then, if the build
directory holds exactly one entry and that entry is a directory, descend
`buildContext` into it.  Finally symlink every cached source into
`wd/source` (recorded as effects).  The temporary-directory name `wd`
chosen by `os.MkdirTemp` is a parameter.  Returns the build context, the
updated sources, the world and the effect trace. -/
def setupBuildSteps (hash : Bytes → Bytes) (net : String → Option Bytes)
    (ext : String → String → World → Except FetchErr World)
    (wd : String) (sp : Spec) (w : World) :
    Except BuildErr (String × List Source × World × List Eff) :=
  let fr := fetchSources hash net sp.sourceCache sp.Sources w
  if fr.1 ≠ [] then .error (.fetchFailed fr.1)
  else
    let w2 := ((((fr.2.2.1.mkdirAll wd).mkdirAll (wd ++ "/" ++ "build")).mkdirAll
      (wd ++ "/" ++ "package")).mkdirAll (wd ++ "/" ++ "source"))
    let ctx := wd ++ "/" ++ "build"
    let syms := fr.2.1.map (fun s =>
      Eff.linked s.savePath (wd ++ "/" ++ "source" ++ "/" ++ goPathBase s.savePath))
    match fr.2.1 with
    | [] => .ok (ctx, fr.2.1, w2, fr.2.2.2 ++ syms)
    | s0 :: _ =>
      match ext s0.savePath ctx w2 with
      | .error e => .error (.stepFailed e)
      | .ok w3 =>
        let ctx1 :=
          match w3.readDirNames ctx with
          | [(n, true)] => ctx ++ "/" ++ n
          | _ => ctx
        .ok (ctx1, fr.2.1, w3, fr.2.2.2 ++ [.extracted s0.savePath ctx] ++ syms)

/-- The stage loop of `buildSteps` (build.go lines 117-130): iterate the
(name, script) pairs, skip an empty script, run a non-empty one through
the stage oracle `execS` (the outcome of the shell invocation), and stop
at the first failure, returning its error.  The first component is the
trace of scripts actually handed to the shell, in order. -/
def runStages (execS : String → Except BuildErr Unit) :
    List (String × String) → List String × Except BuildErr Unit
  | [] => ([], .ok ())
  | (_, cmd) :: rest =>
    if cmd = "" then runStages execS rest
    else
      match execS cmd with
      | .error e => ([cmd], .error e)
      | .ok _ =>
        let r := runStages execS rest
        (cmd :: r.1, r.2)

/-- The `buildSteps` after `setupBuildSteps` (whose outcome is the `setup`
argument): on setup failure return it with no stage run, else run the
stages of `buildOrder`. -/
def buildSteps (execS : String → Except BuildErr Unit)
    (setup : Except BuildErr Unit) (sp : Spec) : List String × Except BuildErr Unit :=
  match setup with
  | .error e => ([], .error e)
  | .ok _ => runStages execS (buildOrder sp)

/-- Specification-side companion of `runStages`: run each script of a
plain list in order through the oracle, stopping after the first
failure. -/
def takeThroughFail (execS : String → Except BuildErr Unit) :
    List String → List String × Except BuildErr Unit
  | [] => ([], .ok ())
  | c :: rest =>
    match execS c with
    | .error e => ([c], .error e)
    | .ok _ =>
      let r := takeThroughFail execS rest
      (c :: r.1, r.2)

/-! ## Concrete fixtures (used by the closed witness theorems below) -/

/-- A stand-in digest function: 32 zero bytes, whatever the input. -/
def zeroHash : Bytes → Bytes := fun _ => List.replicate 32 0

/-- The hex digest `zeroHash` yields: 64 zeros. -/
def zeroSum : String := hexEncode (List.replicate 32 0)

/-- A stand-in digest function: 32 bytes of 0xab. -/
def abHash : Bytes → Bytes := fun _ => List.replicate 32 171

/-- The upper-case spelling of the hex digest of `abHash` (`"ABAB…AB"`). -/
def abUpper : String := ⟨(List.replicate 32 (['A', 'B'] : List Char)).flatten⟩

/-- A network oracle that always fails. -/
def noNet : String → Option Bytes := fun _ => none

/-- A `file://` source whose digest is `zeroSum`. -/
def fileSource : Source :=
  { URL := "file:///tmp/a.tar.gz", B3Sum := zeroSum, LocalName := "/tmp/a.tar.gz",
    protocol := "file" }

/-- The `fileSource` after a fetch has recorded its cache path. -/
def fileSourceS : Source := { fileSource with savePath := "/cache/a.tar.gz" }

/-- A world holding only the upstream file. -/
def worldA : World := { files := [("/tmp/a.tar.gz", [1, 2, 3])], dirs := [] }

/-- The `worldA` after `fetchSource` cached the file. -/
def worldA1 : World :=
  { files := [("/cache/a.tar.gz", [1, 2, 3]), ("/tmp/a.tar.gz", [1, 2, 3])],
    dirs := ["/cache"] }

/-- A single file `"f"` for exercising the digest check. -/
def checkWorld : World := { files := [("f", [0])], dirs := [] }

/-- A source with a 64-character, non-hexadecimal b3sum. -/
def zSource : Source := { URL := "https://x/f.tar.gz", B3Sum := ⟨List.replicate 64 'z'⟩ }

/-- The `zSource` as validated by `NewSpec`. -/
def zSourceOut : Source :=
  { URL := "https://x/f.tar.gz", B3Sum := ⟨List.replicate 64 'z'⟩,
    LocalName := "/f.tar.gz", protocol := "http" }

/-- A well-formed source with a 64-character lowercase hex b3sum. -/
def aSource : Source := { URL := "https://x/f.tar.gz", B3Sum := ⟨List.replicate 64 'a'⟩ }

/-- The `aSource` as validated by `NewSpec`. -/
def aSourceOut : Source :=
  { URL := "https://x/f.tar.gz", B3Sum := ⟨List.replicate 64 'a'⟩,
    LocalName := "/f.tar.gz", protocol := "http" }

/-- A source whose b3sum is too short for the schema. -/
def shortSource : Source := { URL := "https://x/f.tar.gz", B3Sum := "abc" }

/-- A source with the unsupported URL scheme `gxp` (spec scenario E3). -/
def gxpSource : Source :=
  { URL := "gxp://pkgs.merelinux.org", B3Sum := ⟨List.replicate 64 'a'⟩ }

/-- The parse of the URL of `gxpSource`. -/
def gxpURL : GoURL := { scheme := "gxp", host := "pkgs.merelinux.org", path := "" }

/-- A source whose URL carries a regular file path. -/
def dirSource : Source :=
  { URL := "https://host/dir/file.tar.gz", B3Sum := ⟨List.replicate 64 'a'⟩ }

/-- The `dirSource` as accepted by `validateSource`. -/
def dirSourceOut : Source :=
  { URL := "https://host/dir/file.tar.gz", B3Sum := ⟨List.replicate 64 'a'⟩,
    LocalName := "/dir/file.tar.gz", protocol := "http" }

/-- A source whose URL path has no final path element. -/
def slashSource : Source :=
  { URL := "https://host/", B3Sum := ⟨List.replicate 64 'a'⟩ }

/-- The parse of the URL of `slashSource`. -/
def slashURL : GoURL := { scheme := "https", host := "host", path := "/" }

/-- A source whose cached copy will not match its b3sum. -/
def mismSource : Source :=
  { URL := "file:///tmp/a.tar.gz", B3Sum := ⟨List.replicate 64 'f'⟩,
    LocalName := "/tmp/a.tar.gz", protocol := "file" }

/-- A world already holding a (stale) cached file for `mismSource`. -/
def worldCached : World :=
  { files := [("/cache/a.tar.gz", [7]), ("/tmp/a.tar.gz", [1, 2, 3])],
    dirs := ["/cache"] }

/-- Archive extractor stub that creates one top-level directory `pkg-1.0`. -/
def oneDirExtract : String → String → World → Except FetchErr World :=
  fun _ dst w => .ok (w.mkdirAll (dst ++ "/pkg-1.0"))

/-- A recipe with the single source `fileSource`. -/
def specA : Spec :=
  { Name := "pkg", Version := "1.0", Sources := [fileSource], sourceCache := "/cache" }

/-- The world `setupBuildSteps` produces from `specA` over `worldA`. -/
def setupWorldA : World :=
  { files := [("/cache/a.tar.gz", [1, 2, 3]), ("/tmp/a.tar.gz", [1, 2, 3])],
    dirs := ["/wd/build/pkg-1.0", "/wd/source", "/wd/package", "/wd/build", "/wd", "/cache"] }

/-- The effect trace `setupBuildSteps` produces from `specA` over `worldA`. -/
def setupEffsA : List Eff :=
  [Eff.fileCopy "/tmp/a.tar.gz" "/cache/a.tar.gz",
   Eff.extracted "/cache/a.tar.gz" "/wd/build",
   Eff.linked "/cache/a.tar.gz" "/wd/source/a.tar.gz"]
/-! ## Helper lemmas -/

theorem dropWhile_head_false {α : Type} {p : α → Bool} :
    ∀ {l : List α} {a : α} {t : List α}, l.dropWhile p = a :: t → p a = false := by
  intro l
  induction l with
  | nil => intro a t h; simp [List.dropWhile] at h
  | cons x xs ih =>
    intro a t h
    rw [List.dropWhile_cons] at h
    by_cases hx : p x = true
    · simp [hx] at h; exact ih h
    · simp [hx] at h; rcases h with ⟨h1, _⟩; simp [← h1]; simpa using hx

theorem find?_filter {α : Type} (p q : α → Bool) (l : List α)
    (h : ∀ x, p x = true → q x = true) : (l.filter q).find? p = l.find? p := by
  induction l with
  | nil => rfl
  | cons x xs ih =>
    by_cases hp : p x = true
    · have hq := h x hp
      simp [List.filter_cons, hq, List.find?_cons, hp, ih]
    · by_cases hq : q x = true
      · simp [List.filter_cons, hq, List.find?_cons, hp, ih]
      · simp [List.filter_cons, hq, List.find?_cons, hp, ih]

theorem afterLastChar_of_base_ne_nil (p : String) (hq : dropTrailingSlashes p.data ≠ []) :
    afterLastChar '/' (dropTrailingSlashes p.data) ≠ [] ∧
      ∀ c ∈ afterLastChar '/' (dropTrailingSlashes p.data), c ≠ '/' := by
  set q := dropTrailingSlashes p.data with hqdef
  have hrev : q.reverse ≠ [] := by
    intro h
    exact hq (by simpa using congrArg List.reverse h)
  obtain ⟨a, t, hat⟩ := List.exists_cons_of_ne_nil hrev
  have hqrev : q.reverse = p.data.reverse.dropWhile (fun c => decide (c = '/')) := by
    rw [hqdef]; unfold dropTrailingSlashes; simp
  have hdw : p.data.reverse.dropWhile (fun c => decide (c = '/')) = a :: t := by
    rw [← hqrev, hat]
  have ha : (fun c => decide (c = '/')) a = false :=
    dropWhile_head_false (p := fun c => decide (c = '/')) hdw
  have ha2 : a ≠ '/' := by simpa using ha
  constructor
  · unfold afterLastChar
    rw [hat, List.takeWhile_cons]
    simp [ha2]
  · intro c hc
    unfold afterLastChar at hc
    rw [List.mem_reverse] at hc
    have := List.mem_takeWhile_imp hc
    simpa using this

theorem goPathBase_ne_nil (p : String) : (goPathBase p).data ≠ [] := by
  unfold goPathBase
  split
  · decide
  · show (if dropTrailingSlashes p.data = [] then "/"
      else (⟨afterLastChar '/' (dropTrailingSlashes p.data)⟩ : String)).data ≠ []
    split
    · decide
    · next hq =>
      show afterLastChar '/' (dropTrailingSlashes p.data) ≠ []
      exact (afterLastChar_of_base_ne_nil p hq).1

theorem goPathBase_no_slash (p : String) :
    goPathBase p = "/" ∨ ∀ c ∈ (goPathBase p).data, c ≠ '/' := by
  unfold goPathBase
  split
  · right; intro c hc; simp at hc; simp [hc]
  · show (if dropTrailingSlashes p.data = [] then "/"
        else (⟨afterLastChar '/' (dropTrailingSlashes p.data)⟩ : String)) = "/"
      ∨ ∀ c ∈ (if dropTrailingSlashes p.data = [] then "/"
        else (⟨afterLastChar '/' (dropTrailingSlashes p.data)⟩ : String)).data, c ≠ '/'
    split
    · left; rfl
    · next hq =>
      right
      intro c hc
      exact (afterLastChar_of_base_ne_nil p hq).2 c hc

theorem append_ne_left (a b : String) (h : b.data ≠ []) : a ++ b ≠ a := by
  intro he
  have hd := congrArg String.data he
  rw [String.data_append] at hd
  have hlen := congrArg List.length hd
  rw [List.length_append] at hlen
  have : 0 < b.data.length := List.length_pos.mpr h
  omega

theorem savePathFor_ne_left (cache : String) (s : Source) : savePathFor cache s ≠ cache := by
  unfold savePathFor
  rw [String.append_assoc]
  apply append_ne_left
  rw [String.data_append]
  intro hnil
  rcases List.append_eq_nil.mp hnil with ⟨h1, _⟩
  cases h1

theorem ensureDir_ok {w w1 : World} {c : String} (h : ensureDir w c = .ok w1) :
    w1.files = w.files ∧ w1.lookupFile c = none ∧ w1.isDir c = true := by
  unfold ensureDir at h
  by_cases h1 : (w.lookupFile c).isSome
  · simp [h1] at h
  · rw [if_neg (by simpa using h1)] at h
    have hn : w.lookupFile c = none := by
      cases hv : w.lookupFile c with
      | none => rfl
      | some v => rw [hv] at h1; simp at h1
    by_cases h2 : w.isDir c = true
    · rw [if_pos h2] at h
      cases h
      exact ⟨rfl, hn, h2⟩
    · rw [if_neg h2] at h
      cases h
      refine ⟨rfl, ?_, ?_⟩
      · simpa [World.lookupFile, World.mkdirAll] using hn
      · simp [World.isDir, World.mkdirAll]

theorem lookupFile_of_files_eq {w w1 : World} (h : w1.files = w.files) (p : String) :
    w1.lookupFile p = w.lookupFile p := by
  simp [World.lookupFile, h]

theorem writeFile_lookupFile_self (w : World) (p : String) (b : Bytes) :
    (w.writeFile p b).lookupFile p = some b := by
  simp [World.writeFile, World.lookupFile, List.find?_cons]

theorem writeFile_lookupFile_other (w : World) (p : String) (b : Bytes) (q : String)
    (h : q ≠ p) : (w.writeFile p b).lookupFile q = w.lookupFile q := by
  simp only [World.writeFile, World.lookupFile, List.find?_cons]
  have hpq : (decide (p = q)) = false := by
    simp
    intro he
    exact h he.symm
  simp only [hpq]
  congr 1
  apply find?_filter
  intro x hx
  simp at hx ⊢
  rw [hx]
  exact h

theorem checkB3Sum_ok_iff (hash : Bytes → Bytes) (w : World) (f b : String) :
    checkB3SumFromFile hash w f b = .ok () ↔
      ∃ data, w.lookupFile f = some data ∧ computeB3Sum hash data = b := by
  unfold checkB3SumFromFile computeB3SumFromFile
  cases hv : w.lookupFile f with
  | none => simp
  | some data =>
    by_cases he : computeB3Sum hash data = b
    · simp [he]
    · simp [he]

theorem hexDigit_lower (n : Nat) (h : n < 16) :
    asciiLower (hexDigit n) = hexDigit n ∧ isHexChar (hexDigit n) = true := by
  interval_cases n <;> exact ⟨by decide, by decide⟩

theorem hexEncode_cons (x : Nat) (xs : Bytes) :
    (hexEncode (x :: xs)).data
      = hexDigit (x / 16 % 16) :: hexDigit (x % 16) :: (hexEncode xs).data := rfl

theorem hexEncode_lowercase (b : Bytes) :
    lowerString (hexEncode b) = hexEncode b ∧ (hexEncode b).data.all isHexChar = true := by
  induction b with
  | nil => exact ⟨by decide, by decide⟩
  | cons x xs ih =>
    have h1 := hexDigit_lower (x / 16 % 16) (Nat.mod_lt _ (by norm_num))
    have h2 := hexDigit_lower (x % 16) (Nat.mod_lt _ (by norm_num))
    have hih : (hexEncode xs).data.map asciiLower = (hexEncode xs).data :=
      congrArg String.data ih.1
    constructor
    · apply String.ext
      show ((hexEncode (x :: xs)).data.map asciiLower) = (hexEncode (x :: xs)).data
      rw [hexEncode_cons, List.map_cons, List.map_cons, h1.1, h2.1, hih]
    · rw [hexEncode_cons] at *
      simp only [List.all_cons, h1.2, h2.2, Bool.true_and]
      exact ih.2

theorem takeWhile_append_stop {p : Char → Bool} :
    ∀ (a b : List Char) (x : Char), (∀ c ∈ a, p c = true) → p x = false →
      (a ++ x :: b).takeWhile p = a := by
  intro a
  induction a with
  | nil =>
    intro b x _ hx
    simp [List.takeWhile_cons, hx]
  | cons y ys ih =>
    intro b x ha hx
    have hy : p y = true := ha y (by simp)
    rw [List.cons_append, List.takeWhile_cons, hy]
    simp [ih b x (fun c hc => ha c (by simp [hc])) hx]

theorem envKey_after (k r : String) (hk : ∀ c ∈ k.data, c ≠ '=') :
    envKey ⟨k.data ++ '=' :: r.data⟩ = k := by
  unfold envKey cutAtChar
  apply String.ext
  show List.takeWhile _ (k.data ++ '=' :: r.data) = k.data
  apply takeWhile_append_stop
  · intro c hc
    simpa using hk c hc
  · simp

theorem envKey_mere_pkg (wd : String) :
    envKey ("MERE_PKGDIR=" ++ wd ++ "/" ++ "package") = "MERE_PKGDIR" := by
  have hd : ("MERE_PKGDIR=" ++ wd ++ "/" ++ "package")
      = ⟨"MERE_PKGDIR".data ++ '=' :: (wd ++ "/" ++ "package").data⟩ := by
    apply String.ext
    simp [String.data_append]
  rw [hd]
  exact envKey_after "MERE_PKGDIR" (wd ++ "/" ++ "package") (by decide)

theorem envKey_mere_src (wd : String) :
    envKey ("MERE_SRCDIR=" ++ wd ++ "/" ++ "source") = "MERE_SRCDIR" := by
  have hd : ("MERE_SRCDIR=" ++ wd ++ "/" ++ "source")
      = ⟨"MERE_SRCDIR".data ++ '=' :: (wd ++ "/" ++ "source").data⟩ := by
    apply String.ext
    simp [String.data_append]
  rw [hd]
  exact envKey_after "MERE_SRCDIR" (wd ++ "/" ++ "source") (by decide)

/-- C5: the environment of the child shell process of every stage is exactly
`MERE_PKGDIR=workingDir/package` and `MERE_SRCDIR=workingDir/source`; every
variable in the child environment has one of those two names (so no
`PATH`, no `HOME`), and the child environment does not depend on the
parent process environment at all. -/
theorem claim5_executeStage_env (parentEnv : List String) (wd ctx stage : String) :
    childEnv parentEnv (some (executeStage wd ctx stage).env)
        = ["MERE_PKGDIR=" ++ wd ++ "/" ++ "package",
           "MERE_SRCDIR=" ++ wd ++ "/" ++ "source"]
    ∧ (∀ v ∈ childEnv parentEnv (some (executeStage wd ctx stage).env),
        envKey v = "MERE_PKGDIR" ∨ envKey v = "MERE_SRCDIR")
    ∧ childEnv parentEnv (some (executeStage wd ctx stage).env)
        = childEnv [] (some (executeStage wd ctx stage).env) := by
  refine ⟨rfl, ?_, rfl⟩
  intro v hv
  simp only [childEnv, executeStage, List.mem_cons, List.not_mem_nil, or_false] at hv
  rcases hv with hv | hv
  · left; rw [hv]; exact envKey_mere_pkg wd
  · right; rw [hv]; exact envKey_mere_src wd

theorem runStages_eq (execS : String → Except BuildErr Unit) :
    ∀ l : List (String × String),
      runStages execS l
        = takeThroughFail execS ((l.map Prod.snd).filter (fun c => c ≠ "")) := by
  intro l
  induction l with
  | nil => rfl
  | cons hd rest ih =>
    obtain ⟨n, cmd⟩ := hd
    by_cases hc : cmd = ""
    · subst hc
      simp [runStages, List.filter_cons, ih]
    · simp only [runStages, if_neg hc, List.map_cons, List.filter_cons]
      have hdec : (decide (cmd ≠ "")) = true := by simp [hc]
      rw [hdec]
      simp only [takeThroughFail]
      cases execS cmd with
      | error e => rfl
      | ok _ => rw [ih]

theorem takeThroughFail_mem (execS : String → Except BuildErr Unit) :
    ∀ (l : List String) (c : String), c ∈ (takeThroughFail execS l).1 → c ∈ l := by
  intro l
  induction l with
  | nil => intro c hc; simp [takeThroughFail] at hc
  | cons x xs ih =>
    intro c hc
    unfold takeThroughFail at hc
    cases hx : execS x with
    | error e =>
      rw [hx] at hc
      simp at hc
      simp [hc]
    | ok u =>
      rw [hx] at hc
      simp at hc
      rcases hc with hc | hc
      · simp [hc]
      · exact List.mem_cons_of_mem x (ih c hc)

/-- C6: within one build the stages run in exactly the order build, test,
install; an empty stage script is skipped without invoking the shell (the
executed scripts are exactly the non-empty ones, in order, cut off at the
first failure, whose error is returned); and a setup failure runs no
stage at all. -/
theorem claim6_buildSteps_order (execS : String → Except BuildErr Unit) (sp : Spec)
    (e : BuildErr) :
    buildSteps execS (.ok ()) sp
        = takeThroughFail execS ([sp.Build, sp.Test, sp.Install].filter (fun c => c ≠ ""))
    ∧ (∀ c ∈ (buildSteps execS (.ok ()) sp).1, c ≠ "")
    ∧ buildSteps execS (.error e) sp = ([], .error e) := by
  have hmain : buildSteps execS (.ok ()) sp
      = takeThroughFail execS ([sp.Build, sp.Test, sp.Install].filter (fun c => c ≠ "")) := by
    show runStages execS (buildOrder sp) = _
    rw [runStages_eq]
    rfl
  refine ⟨hmain, ?_, rfl⟩
  intro c hc
  rw [hmain] at hc
  have := takeThroughFail_mem execS _ c hc
  have := List.of_mem_filter this
  simpa using this

/-- C7: `fetchSources` attempts every source in recipe order (one attempt
per source, even after earlier failures) and returns exactly the errors
of the failing attempts, in that same order. -/
theorem claim7_fetchSources_all (hash : Bytes → Bytes) (net : String → Option Bytes)
    (cache : String) (sources : List Source) (w : World) :
    (fetchSources hash net cache sources w).1
        = (fetchAttempts hash net cache sources w).filterMap
            (fun r => match r with | .error e => some e | .ok _ => none)
    ∧ (fetchAttempts hash net cache sources w).length = sources.length := by
  induction sources generalizing w with
  | nil => exact ⟨rfl, rfl⟩
  | cons s rest ih =>
    constructor
    · have hunfold : (fetchSources hash net cache (s :: rest) w).1
          = (match (fetchSource hash net cache s w).1 with
              | .error e => [e] | .ok _ => [])
            ++ (fetchSources hash net cache rest (fetchSource hash net cache s w).2.2.1).1 := rfl
      have hA : fetchAttempts hash net cache (s :: rest) w
          = (fetchSource hash net cache s w).1
            :: fetchAttempts hash net cache rest (fetchSource hash net cache s w).2.2.1 := rfl
      rw [hunfold, hA, List.filterMap_cons, (ih _).1]
      cases (fetchSource hash net cache s w).1 <;> simp
    · show (fetchAttempts hash net cache (s :: rest) w).length = rest.length + 1
      unfold fetchAttempts
      simp [(ih _).2]

/-- C1 counterexample: the file digest `abab…ab` equals the expected
digest `ABAB…AB` up to letter case, yet `checkB3SumFromFile` reports a
mismatch — verification is not case-insensitive. -/
theorem claim1_counterexample :
    hexEqCaseless (computeB3Sum abHash [0]) abUpper = true
    ∧ checkB3SumFromFile abHash checkWorld "f" abUpper
        = .error (.b3sumMismatch abUpper (computeB3Sum abHash [0])) := by
  exact ⟨by decide, by rfl⟩

/-- C1 (amended): digest verification compares the expected string and
the computed digest by exact string equality, the computed digest being
lower-case hex; it succeeds exactly when the expected string is that
lower-case digest, and otherwise returns a mismatch error carrying the
expected and the actual digest. -/
theorem claim1_checkB3Sum_exact (hash : Bytes → Bytes) (w : World) (f b3sum : String)
    (data : Bytes) (h : w.lookupFile f = some data) :
    (checkB3SumFromFile hash w f b3sum = .ok () ↔ b3sum = computeB3Sum hash data)
    ∧ (b3sum ≠ computeB3Sum hash data →
        checkB3SumFromFile hash w f b3sum
          = .error (.b3sumMismatch b3sum (computeB3Sum hash data)))
    ∧ lowerString (computeB3Sum hash data) = computeB3Sum hash data := by
  refine ⟨?_, ?_, (hexEncode_lowercase (hash data)).1⟩
  · rw [checkB3Sum_ok_iff]
    constructor
    · rintro ⟨d, hd, he⟩
      rw [h] at hd
      cases hd
      exact he.symm
    · intro hb
      exact ⟨data, h, hb.symm⟩
  · intro hb
    unfold checkB3SumFromFile computeB3SumFromFile
    rw [h]
    show (if computeB3Sum hash data = b3sum then (.ok () : Except FetchErr Unit)
      else .error (.b3sumMismatch b3sum (computeB3Sum hash data))) = _
    rw [if_neg (fun hc => hb hc.symm)]

/-- C1 witness for the amended theorem, at a concrete file and digest. -/
theorem claim1_checkB3Sum_exact_witness :
    checkWorld.lookupFile "f" = some [0]
    ∧ checkB3SumFromFile abHash checkWorld "f" (computeB3Sum abHash [0]) = .ok () := by
  refine ⟨by decide, ?_⟩
  exact ((claim1_checkB3Sum_exact abHash checkWorld "f"
    (computeB3Sum abHash [0]) [0] (by decide)).1).mpr rfl

/-- C2 counterexample: a recipe whose b3sum is 64 letters `z` — not a
hexadecimal string — passes the whole `NewSpec` validation pipeline. -/
theorem claim2_counterexample :
    newSpecValidate [zSource] = .ok [zSourceOut]
    ∧ matchesHex64 zSource.B3Sum = false := by
  exact ⟨by rfl, by decide⟩

/-- C2 (amended): if `NewSpec` succeeds then the b3sum of every source has
exactly 64 characters (the only schema constraint on b3sum is
`minLength=64,maxLength=64`), and a source with a b3sum of any other
length is rejected by schema validation; the hexadecimal character class
of the regular expression in the spec is not enforced. -/
theorem claim2_b3sum_length (sources : List Source) :
    (∀ out, newSpecValidate sources = .ok out → ∀ s ∈ sources, s.B3Sum.length = 64)
    ∧ (∀ s ∈ sources, s.B3Sum.length ≠ 64 →
        newSpecValidate sources = .error .schemaErr) := by
  constructor
  · intro out h s hs
    unfold newSpecValidate at h
    by_cases hv : validateSchemaSources sources = true
    · unfold validateSchemaSources at hv
      rw [List.all_eq_true] at hv
      simpa using hv s hs
    · rw [if_neg hv] at h
      cases h
  · intro s hs hlen
    unfold newSpecValidate
    have hv : ¬validateSchemaSources sources = true := by
      unfold validateSchemaSources
      rw [List.all_eq_true]
      intro hall
      exact hlen (by simpa using hall s hs)
    rw [if_neg hv]

/-- C2 witness for the amended theorem: a 64-character b3sum passes and
its length really is 64; a 3-character b3sum is rejected by the schema. -/
theorem claim2_b3sum_length_witness :
    newSpecValidate [aSource] = .ok [aSourceOut]
    ∧ aSource.B3Sum.length = 64
    ∧ shortSource.B3Sum.length ≠ 64
    ∧ newSpecValidate [shortSource] = .error .schemaErr := by
  refine ⟨by rfl, ?_, by decide, ?_⟩
  · exact (claim2_b3sum_length [aSource]).1 [aSourceOut] (by rfl) aSource (by simp)
  · exact (claim2_b3sum_length [shortSource]).2 shortSource (by simp) (by decide)

theorem validateSources_append_err (pre rest : List Source) (e : SpecErr)
    (hpre : ∀ t ∈ pre, ∃ t1, validateSource t = .ok t1)
    (hrest : validateSources rest = .error e) :
    validateSources (pre ++ rest) = .error e := by
  induction pre with
  | nil => simpa using hrest
  | cons t ts ih =>
    obtain ⟨t1, ht⟩ := hpre t (by simp)
    have hind := ih (fun x hx => hpre x (by simp [hx]))
    show validateSources (t :: (ts ++ rest)) = .error e
    rw [show validateSources (t :: (ts ++ rest))
        = (match validateSource t with
            | .error e2 => .error e2
            | .ok s1 =>
              match validateSources (ts ++ rest) with
              | .error e2 => .error e2
              | .ok r => .ok (s1 :: r)) from rfl, ht, hind]

/-- C9: a recipe containing a source whose URL parses with a non-empty
scheme outside file/http/https fails `NewSpec` validation with the
unsupported-scheme error naming that scheme, provided the sources before
it validate (the first failing source determines the reported error). -/
theorem claim9_unsupported_scheme (pre post : List Source) (s : Source) (u : GoURL)
    (hschema : validateSchemaSources (pre ++ s :: post) = true)
    (hpre : ∀ t ∈ pre, ∃ t1, validateSource t = .ok t1)
    (hparse : urlParse s.URL = .ok u)
    (h1 : u.scheme ≠ "") (h2 : u.scheme ≠ "file") (h3 : u.scheme ≠ "http")
    (h4 : u.scheme ≠ "https") :
    newSpecValidate (pre ++ s :: post) = .error (.unsupportedScheme u.scheme) := by
  unfold newSpecValidate
  rw [if_pos hschema]
  apply validateSources_append_err _ _ _ hpre
  have hval : validateSource s = .error (.unsupportedScheme u.scheme) := by
    unfold validateSource
    rw [hparse]
    show (if u.scheme = "" ∨ u.scheme = "file" then validateSource.validateSourceTail s u "file"
      else if u.scheme = "http" ∨ u.scheme = "https" then
        validateSource.validateSourceTail s u "http"
      else .error (.unsupportedScheme u.scheme)) = .error (.unsupportedScheme u.scheme)
    rw [if_neg (not_or.mpr ⟨h1, h2⟩), if_neg (not_or.mpr ⟨h3, h4⟩)]
  rw [show validateSources (s :: post)
      = (match validateSource s with
          | .error e2 => .error e2
          | .ok s1 =>
            match validateSources post with
            | .error e2 => .error e2
            | .ok r => .ok (s1 :: r)) from rfl, hval]

/-- C9 witness: spec scenario E3 — the scheme `gxp` is rejected citing
`gxp`. -/
theorem claim9_witness :
    urlParse gxpSource.URL = .ok gxpURL
    ∧ newSpecValidate [gxpSource] = .error (.unsupportedScheme "gxp") := by
  refine ⟨by rfl, ?_⟩
  have h := claim9_unsupported_scheme [] [] gxpSource gxpURL (by decide)
    (by simp) (by rfl) (by decide) (by decide) (by decide) (by decide)
  simpa using h

theorem validateSourceTail_ok {s s1 : Source} {u : GoURL} {proto : String}
    (h : validateSource.validateSourceTail s u proto = .ok s1) :
    s1.LocalName = effLocalName s u
    ∧ filepathAbsSlash (goPathBase (effLocalName s u)) ≠ "/" := by
  unfold validateSource.validateSourceTail at h
  by_cases hcond : filepathAbsSlash (goPathBase (effLocalName s u)) = "/"
  · rw [if_pos hcond] at h
    cases h
  · rw [if_neg hcond] at h
    cases h
    exact ⟨rfl, hcond⟩

/-- C4: every source accepted by `validateSource` has a cache path
`savePath = sourceCache ++ "/" ++ path.Base(localName)` whose appended
basename is a single non-empty slash-free component different from
`"/"`, `"."` and `".."` (so the path lies strictly inside the cache
directory and differs from it); and a source whose URL or localName
resolves to an empty basename — one that `filepath.Abs` collapses to the
root — is rejected with the no-path-element error. -/
theorem claim4_savePath_inside (cache : String) (s : Source) :
    (∀ s1, validateSource s = .ok s1 →
      goPathBase s1.LocalName ≠ "" ∧ goPathBase s1.LocalName ≠ "/"
      ∧ goPathBase s1.LocalName ≠ "." ∧ goPathBase s1.LocalName ≠ ".."
      ∧ (∀ c ∈ (goPathBase s1.LocalName).data, c ≠ '/')
      ∧ savePathFor cache s1 = cache ++ "/" ++ goPathBase s1.LocalName
      ∧ savePathFor cache s1 ≠ cache)
    ∧ (∀ u, urlParse s.URL = .ok u →
        (u.scheme = "" ∨ u.scheme = "file" ∨ u.scheme = "http" ∨ u.scheme = "https") →
        filepathAbsSlash (goPathBase (effLocalName s u)) = "/" →
        validateSource s = .error .noPathElement) := by
  constructor
  · intro s1 h
    unfold validateSource at h
    cases hu : urlParse s.URL with
    | error e => rw [hu] at h; cases h
    | ok u =>
      rw [hu] at h
      have h2 : (if u.scheme = "" ∨ u.scheme = "file" then
          validateSource.validateSourceTail s u "file"
        else if u.scheme = "http" ∨ u.scheme = "https" then
          validateSource.validateSourceTail s u "http"
        else .error (.unsupportedScheme u.scheme)) = .ok s1 := h
      have key : s1.LocalName = effLocalName s u
          ∧ filepathAbsSlash (goPathBase (effLocalName s u)) ≠ "/" := by
        by_cases hs1 : u.scheme = "" ∨ u.scheme = "file"
        · rw [if_pos hs1] at h2
          exact validateSourceTail_ok h2
        · rw [if_neg hs1] at h2
          by_cases hs2 : u.scheme = "http" ∨ u.scheme = "https"
          · rw [if_pos hs2] at h2
            exact validateSourceTail_ok h2
          · rw [if_neg hs2] at h2
            cases h2
      obtain ⟨hLN, hcond⟩ := key
      rw [← hLN] at hcond
      have hne : goPathBase s1.LocalName ≠ "" := by
        intro hb
        exact goPathBase_ne_nil s1.LocalName (by rw [hb])
      have hslash : goPathBase s1.LocalName ≠ "/" := by
        intro hb
        exact hcond (by rw [hb]; decide)
      have hdot : goPathBase s1.LocalName ≠ "." := by
        intro hb
        exact hcond (by rw [hb]; decide)
      have hddot : goPathBase s1.LocalName ≠ ".." := by
        intro hb
        exact hcond (by rw [hb]; decide)
      have hnosl : ∀ c ∈ (goPathBase s1.LocalName).data, c ≠ '/' := by
        rcases goPathBase_no_slash s1.LocalName with hb | hb
        · exact absurd hb hslash
        · exact hb
      exact ⟨hne, hslash, hdot, hddot, hnosl, rfl, savePathFor_ne_left cache s1⟩
  · intro u hu hscheme hcond
    unfold validateSource
    rw [hu]
    show (if u.scheme = "" ∨ u.scheme = "file" then
        validateSource.validateSourceTail s u "file"
      else if u.scheme = "http" ∨ u.scheme = "https" then
        validateSource.validateSourceTail s u "http"
      else .error (.unsupportedScheme u.scheme)) = .error .noPathElement
    have htail : ∀ proto, validateSource.validateSourceTail s u proto
        = .error .noPathElement := by
      intro proto
      unfold validateSource.validateSourceTail
      rw [if_pos hcond]
    by_cases hs1 : u.scheme = "" ∨ u.scheme = "file"
    · rw [if_pos hs1]
      exact htail "file"
    · have hs2 : u.scheme = "http" ∨ u.scheme = "https" := by
        rcases hscheme with h | h | h | h
        · exact absurd (Or.inl h) hs1
        · exact absurd (Or.inr h) hs1
        · exact Or.inl h
        · exact Or.inr h
      rw [if_neg hs1, if_pos hs2]
      exact htail "http"

/-- C4 witness: a normal source is accepted with basename
`file.tar.gz` strictly inside the cache; a URL ending in `/` is rejected
with the no-path-element error. -/
theorem claim4_witness :
    validateSource dirSource = .ok dirSourceOut
    ∧ goPathBase dirSourceOut.LocalName = "file.tar.gz"
    ∧ savePathFor "/cache" dirSourceOut ≠ "/cache"
    ∧ validateSource slashSource = .error .noPathElement := by
  refine ⟨by rfl, by rfl, ?_, ?_⟩
  · exact ((claim4_savePath_inside "/cache" dirSource).1 dirSourceOut
      (by rfl)).2.2.2.2.2.2
  · exact (claim4_savePath_inside "/cache" slashSource).2 slashURL (by rfl)
      (by right; right; right; rfl) (by rfl)

/-- C10: when a file already exists at `savePath`, `fetchSource` makes
no network request, performs no copy, leaves the files of the world — in
particular the cached file — byte-for-byte unchanged, and returns ok on
a digest match and the digest-mismatch error (carrying expected and
actual) otherwise. -/
theorem claim10_fetchSource_frame (hash : Bytes → Bytes) (net : String → Option Bytes)
    (cache : String) (s : Source) (w : World) (data : Bytes)
    (hfile : w.lookupFile (savePathFor cache s) = some data)
    (hcache : w.lookupFile cache = none) :
    (fetchSource hash net cache s w).2.2.1.files = w.files
    ∧ (fetchSource hash net cache s w).2.2.2 = []
    ∧ (fetchSource hash net cache s w).2.2.1.lookupFile (savePathFor cache s) = some data
    ∧ (fetchSource hash net cache s w).1
        = (if computeB3Sum hash data = s.B3Sum then .ok ()
           else .error (.b3sumMismatch s.B3Sum (computeB3Sum hash data))) := by
  obtain ⟨w1, hed, hfiles⟩ : ∃ w1, ensureDir w cache = .ok w1 ∧ w1.files = w.files := by
    unfold ensureDir
    rw [if_neg (by simp [hcache])]
    by_cases hdir : w.isDir cache = true
    · exact ⟨w, by rw [if_pos hdir], rfl⟩
    · exact ⟨w.mkdirAll cache, by rw [if_neg hdir], rfl⟩
  have hlk1 : w1.lookupFile (savePathFor cache s) = some data := by
    rw [lookupFile_of_files_eq hfiles]
    exact hfile
  have hstat : w1.statExists (savePathFor cache s) = true := by
    unfold World.statExists
    rw [hlk1]
    rfl
  have hrun : fetchSource hash net cache s w
      = (checkB3SumFromFile hash w1 (savePathFor cache s) s.B3Sum,
         { s with savePath := savePathFor cache s }, w1, []) := by
    unfold fetchSource
    rw [hed]
    dsimp only
    rw [if_pos hstat]
  have hchk : checkB3SumFromFile hash w1 (savePathFor cache s) s.B3Sum
      = (if computeB3Sum hash data = s.B3Sum then .ok ()
         else .error (.b3sumMismatch s.B3Sum (computeB3Sum hash data))) := by
    unfold checkB3SumFromFile computeB3SumFromFile
    rw [hlk1]
  refine ⟨by rw [hrun]; exact hfiles, by rw [hrun], by rw [hrun]; exact hlk1, ?_⟩
  rw [hrun]
  exact hchk

/-- C10 witness: a stale cached file is left in place, no effect is
performed, and the mismatch error carries both digests. -/
theorem claim10_witness :
    worldCached.lookupFile (savePathFor "/cache" mismSource) = some [7]
    ∧ worldCached.lookupFile "/cache" = none
    ∧ (fetchSource zeroHash noNet "/cache" mismSource worldCached).2.2.1.files
        = worldCached.files
    ∧ (fetchSource zeroHash noNet "/cache" mismSource worldCached).2.2.2 = []
    ∧ (fetchSource zeroHash noNet "/cache" mismSource worldCached).1
        = .error (.b3sumMismatch mismSource.B3Sum (computeB3Sum zeroHash [7])) := by
  have h := claim10_fetchSource_frame zeroHash noNet "/cache" mismSource worldCached [7]
    (by rfl) (by rfl)
  refine ⟨by rfl, by rfl, h.1, h.2.1, ?_⟩
  rw [h.2.2.2]
  rfl

theorem fetchSource_second_call (hash : Bytes → Bytes) (net : String → Option Bytes)
    (cache : String) (s1 : Source) (w1 : World)
    (hLc : w1.lookupFile cache = none) (hDc : w1.isDir cache = true)
    (hsp : s1.savePath = savePathFor cache s1)
    (hfile : (w1.lookupFile s1.savePath).isSome = true) :
    fetchSource hash net cache s1 w1
      = (checkB3SumFromFile hash w1 s1.savePath s1.B3Sum, s1, w1, []) := by
  have hed : ensureDir w1 cache = .ok w1 := by
    unfold ensureDir
    rw [if_neg (by simp [hLc]), if_pos hDc]
  have hst : w1.statExists (savePathFor cache s1) = true := by
    unfold World.statExists
    rw [← hsp, hfile]
    rfl
  unfold fetchSource
  rw [hed]
  dsimp only
  rw [if_pos hst, ← hsp]

/-- C3: when `fetchSource` succeeds, calling it again on the same
(updated) source performs no network request and no file copy: the
second call finds the file at `savePath` (the cache hit), re-verifies
its digest, returns the outcome of that verification — which is success —
and leaves the world unchanged with an empty effect trace. -/
theorem claim3_fetchSource_idempotent (hash : Bytes → Bytes) (net : String → Option Bytes)
    (cache : String) (s : Source) (w : World) (s1 : Source) (w1 : World) (effs : List Eff)
    (h : fetchSource hash net cache s w = (.ok (), s1, w1, effs)) :
    (w1.lookupFile s1.savePath).isSome = true
    ∧ checkB3SumFromFile hash w1 s1.savePath s1.B3Sum = .ok ()
    ∧ fetchSource hash net cache s1 w1
        = (checkB3SumFromFile hash w1 s1.savePath s1.B3Sum, s1, w1, [])
    ∧ fetchSource hash net cache s1 w1 = (.ok (), s1, w1, ([] : List Eff)) := by
  unfold fetchSource at h
  cases hed : ensureDir w cache with
  | error e =>
    rw [hed] at h
    simp at h
  | ok wA =>
    rw [hed] at h
    dsimp only at h
    obtain ⟨hAf, hAc, hAd⟩ := ensureDir_ok hed
    have key : s1 = { s with savePath := savePathFor cache s }
        ∧ checkB3SumFromFile hash w1 (savePathFor cache s) s.B3Sum = .ok ()
        ∧ w1.lookupFile cache = none ∧ w1.isDir cache = true := by
      by_cases hst : wA.statExists (savePathFor cache s) = true
      · rw [if_pos hst] at h
        obtain ⟨hr, hs1, hw1, -⟩ :=
          (by exact ⟨congrArg (·.1) h, congrArg (·.2.1) h,
            congrArg (·.2.2.1) h, congrArg (·.2.2.2) h⟩ :
            (checkB3SumFromFile hash wA (savePathFor cache s) s.B3Sum = .ok ())
            ∧ ({ s with savePath := savePathFor cache s } = s1) ∧ (wA = w1)
            ∧ (([] : List Eff) = effs))
        exact ⟨hs1.symm, hw1 ▸ hr, hw1 ▸ hAc, hw1 ▸ hAd⟩
      · rw [if_neg hst] at h
        by_cases hp : s.protocol = "file"
        · rw [if_pos hp] at h
          cases hlf : wA.lookupFile s.LocalName with
          | none => rw [hlf] at h; simp at h
          | some data =>
            rw [hlf] at h
            dsimp only at h
            obtain ⟨hr, hs1, hw1, -⟩ :=
              (by exact ⟨congrArg (·.1) h, congrArg (·.2.1) h,
                congrArg (·.2.2.1) h, congrArg (·.2.2.2) h⟩ :
                (checkB3SumFromFile hash (wA.writeFile (savePathFor cache s) data)
                  (savePathFor cache s) s.B3Sum = .ok ())
                ∧ ({ s with savePath := savePathFor cache s } = s1)
                ∧ (wA.writeFile (savePathFor cache s) data = w1)
                ∧ ([Eff.fileCopy s.LocalName (savePathFor cache s)] = effs))
            refine ⟨hs1.symm, hw1 ▸ hr, ?_, ?_⟩
            · rw [← hw1, writeFile_lookupFile_other wA (savePathFor cache s) data cache
                (Ne.symm (savePathFor_ne_left cache s))]
              exact hAc
            · rw [← hw1]
              exact hAd
        · rw [if_neg hp] at h
          by_cases hh : s.protocol = "http"
          · rw [if_pos hh] at h
            cases hnet : net s.URL with
            | none => rw [hnet] at h; simp at h
            | some data =>
              rw [hnet] at h
              dsimp only at h
              obtain ⟨hr, hs1, hw1, -⟩ :=
                (by exact ⟨congrArg (·.1) h, congrArg (·.2.1) h,
                  congrArg (·.2.2.1) h, congrArg (·.2.2.2) h⟩ :
                  (checkB3SumFromFile hash (wA.writeFile (savePathFor cache s) data)
                    (savePathFor cache s) s.B3Sum = .ok ())
                  ∧ ({ s with savePath := savePathFor cache s } = s1)
                  ∧ (wA.writeFile (savePathFor cache s) data = w1)
                  ∧ ([Eff.httpGet s.URL] = effs))
              refine ⟨hs1.symm, hw1 ▸ hr, ?_, ?_⟩
              · rw [← hw1, writeFile_lookupFile_other wA (savePathFor cache s) data cache
                  (Ne.symm (savePathFor_ne_left cache s))]
                exact hAc
              · rw [← hw1]
                exact hAd
          · rw [if_neg hh] at h
            simp at h
    obtain ⟨hs1, hchk, hc1, hc2⟩ := key
    subst hs1
    have hfile : (w1.lookupFile (savePathFor cache s)).isSome = true := by
      obtain ⟨d, hd, -⟩ :=
        (checkB3Sum_ok_iff hash w1 (savePathFor cache s) s.B3Sum).mp hchk
      rw [hd]
      rfl
    have hsecond := fetchSource_second_call hash net cache
      { s with savePath := savePathFor cache s } w1 hc1 hc2 rfl hfile
    refine ⟨hfile, hchk, hsecond, ?_⟩
    rw [hsecond]
    exact congrArg
      (fun r => (r, ({ s with savePath := savePathFor cache s } : Source), w1,
        ([] : List Eff))) hchk

/-- C3 witness: a concrete succeeding fetch, whose repetition returns
success with no effects and no state change. -/
theorem claim3_witness :
    fetchSource zeroHash noNet "/cache" fileSource worldA
        = (.ok (), fileSourceS, worldA1, [Eff.fileCopy "/tmp/a.tar.gz" "/cache/a.tar.gz"])
    ∧ fetchSource zeroHash noNet "/cache" fileSourceS worldA1
        = (.ok (), fileSourceS, worldA1, ([] : List Eff)) := by
  refine ⟨by rfl, ?_⟩
  exact (claim3_fetchSource_idempotent zeroHash noNet "/cache" fileSource worldA
    fileSourceS worldA1 [Eff.fileCopy "/tmp/a.tar.gz" "/cache/a.tar.gz"] (by rfl)).2.2.2

/-- C8: when the recipe has no sources, `setupBuildSteps` extracts
nothing and leaves the build context at `workingDir/build`; when it has
sources, the context descends into the single entry of the build
directory exactly when that directory holds one entry and it is a
directory, and stays at `workingDir/build` in every other case. -/
theorem claim8_buildContext (hash : Bytes → Bytes) (net : String → Option Bytes)
    (ext : String → String → World → Except FetchErr World) (wd : String)
    (sp : Spec) (w : World) (ctx : String) (srcs : List Source) (w2 : World)
    (effs : List Eff)
    (h : setupBuildSteps hash net ext wd sp w = .ok (ctx, srcs, w2, effs)) :
    (sp.Sources = [] →
      ctx = wd ++ "/" ++ "build" ∧ ∀ a d, Eff.extracted a d ∉ effs)
    ∧ (sp.Sources ≠ [] →
      (∀ n, w2.readDirNames (wd ++ "/" ++ "build") = [(n, true)] →
        ctx = wd ++ "/" ++ "build" ++ "/" ++ n)
      ∧ ((∀ n, w2.readDirNames (wd ++ "/" ++ "build") ≠ [(n, true)]) →
        ctx = wd ++ "/" ++ "build")) := by
  constructor
  · intro hnil
    unfold setupBuildSteps at h
    rw [hnil] at h
    rw [if_neg (by simp [fetchSources])] at h
    obtain ⟨hctx, -, -, heffs⟩ :=
      (by exact ⟨congrArg (fun t => t.1) (Except.ok.inj h),
        congrArg (fun t => t.2.1) (Except.ok.inj h),
        congrArg (fun t => t.2.2.1) (Except.ok.inj h),
        congrArg (fun t => t.2.2.2) (Except.ok.inj h)⟩ :
        (wd ++ "/" ++ "build" = ctx) ∧ (([] : List Source) = srcs)
        ∧ (((((w.mkdirAll wd).mkdirAll (wd ++ "/" ++ "build")).mkdirAll
            (wd ++ "/" ++ "package")).mkdirAll (wd ++ "/" ++ "source")) = w2)
        ∧ (([] : List Eff) = effs))
    refine ⟨hctx.symm, ?_⟩
    intro a d
    rw [← heffs]
    simp
  · intro hne
    obtain ⟨s0, rest, hcons⟩ := List.exists_cons_of_ne_nil hne
    unfold setupBuildSteps at h
    rw [hcons] at h
    by_cases herrs : (fetchSources hash net sp.sourceCache (s0 :: rest) w).1 = []
    · rw [if_neg (by simp [herrs])] at h
      have hsrcs : (fetchSources hash net sp.sourceCache (s0 :: rest) w).2.1
          = (fetchSource hash net sp.sourceCache s0 w).2.1
            :: (fetchSources hash net sp.sourceCache rest
                (fetchSource hash net sp.sourceCache s0 w).2.2.1).2.1 := rfl
      rw [hsrcs] at h
      dsimp only at h
      cases hext : ext ((fetchSource hash net sp.sourceCache s0 w).2.1.savePath)
          (wd ++ "/" ++ "build")
          (((((fetchSources hash net sp.sourceCache (s0 :: rest) w).2.2.1.mkdirAll
            wd).mkdirAll (wd ++ "/" ++ "build")).mkdirAll
            (wd ++ "/" ++ "package")).mkdirAll (wd ++ "/" ++ "source")) with
      | error e =>
        rw [hext] at h
        cases h
      | ok w3 =>
        rw [hext] at h
        dsimp only at h
        obtain ⟨hctx, -, hw3, -⟩ :=
          (by exact ⟨congrArg (fun t => t.1) (Except.ok.inj h),
            congrArg (fun t => t.2.1) (Except.ok.inj h),
            congrArg (fun t => t.2.2.1) (Except.ok.inj h),
            congrArg (fun t => t.2.2.2) (Except.ok.inj h)⟩ :
            ((match w3.readDirNames (wd ++ "/" ++ "build") with
              | [(n, true)] => (wd ++ "/" ++ "build") ++ "/" ++ n
              | _ => wd ++ "/" ++ "build") = ctx)
            ∧ ((fetchSource hash net sp.sourceCache s0 w).2.1
                :: (fetchSources hash net sp.sourceCache rest
                  (fetchSource hash net sp.sourceCache s0 w).2.2.1).2.1 = srcs)
            ∧ (w3 = w2)
            ∧ ((fetchSources hash net sp.sourceCache (s0 :: rest) w).2.2.2
                ++ [Eff.extracted ((fetchSource hash net sp.sourceCache s0 w).2.1.savePath)
                    (wd ++ "/" ++ "build")]
                ++ ((fetchSource hash net sp.sourceCache s0 w).2.1
                    :: (fetchSources hash net sp.sourceCache rest
                      (fetchSource hash net sp.sourceCache s0 w).2.2.1).2.1).map
                  (fun s => Eff.linked s.savePath
                    (wd ++ "/" ++ "source" ++ "/" ++ goPathBase s.savePath)) = effs))
        rw [hw3] at hctx
        constructor
        · intro n hRn
          rw [hRn] at hctx
          exact hctx.symm
        · intro hnot
          cases hR : w2.readDirNames (wd ++ "/" ++ "build") with
          | nil =>
            rw [hR] at hctx
            exact hctx.symm
          | cons e es =>
            obtain ⟨nm, b⟩ := e
            cases es with
            | nil =>
              cases b with
              | false =>
                rw [hR] at hctx
                exact hctx.symm
              | true => exact absurd hR (hnot nm)
            | cons e2 es2 =>
              rw [hR] at hctx
              cases b <;> exact hctx.symm
    · rw [if_pos (by simp [herrs])] at h
      cases h

/-- C8 witness: a one-source recipe whose archive extracts to a single
top-level directory makes the build context descend into it. -/
theorem claim8_witness :
    setupBuildSteps zeroHash noNet oneDirExtract "/wd" specA worldA
        = .ok ("/wd/build/pkg-1.0", [fileSourceS], setupWorldA, setupEffsA)
    ∧ setupWorldA.readDirNames ("/wd" ++ "/" ++ "build") = [("pkg-1.0", true)]
    ∧ ("/wd/build/pkg-1.0" : String) = "/wd" ++ "/" ++ "build" ++ "/" ++ "pkg-1.0" := by
  refine ⟨by rfl, by rfl, ?_⟩
  have h := claim8_buildContext zeroHash noNet oneDirExtract "/wd" specA worldA
    "/wd/build/pkg-1.0" [fileSourceS] setupWorldA setupEffsA (by rfl)
  exact (h.2 (List.cons_ne_nil _ _)).1 "pkg-1.0" (by rfl)
